import Mathlib

/-!
Verification of the LabJackPython protocol core against its specification.

The definitions below are shallow embeddings of the checksum/framing layer,
the feedback packet builder, the register read layer and the streaming read
loop of `LabJackPython.py`, `Modbus.py`, `u3.py` and `u6.py`.  Byte buffers
are `List Nat`; the Python expression `x & 0xff` becomes `x % 256`,
`x >> 8` becomes `x / 256`, and a Python `raise` becomes `Option`/`Except`.
-/

namespace LabJack

/-- Python `buffer[i]` read (buffers in scope are long enough, default 0). -/
def byteAt (b : List Nat) (i : Nat) : Nat := b.getD i 0

/-- One fold of the high byte of `t` back into the low byte:
`(t & 0xff) + ((t >> 8) & 0xff)`. -/
def foldHigh (t : Nat) : Nat := t % 256 + t / 256 % 256

/-- The running total of `setChecksum8`:
`total = sum of (buffer[i] & 0xff) for i in range(1, numBytes)`. -/
def chkTotal8 (b : List Nat) (numBytes : Nat) : Nat :=
  ((b.take numBytes).drop 1).foldl (fun t x => t + x % 256) 0

/-- `setChecksum8(buffer, numBytes)` from LabJackPython.py: the total is
folded into a byte twice (`buffer[0]` is assigned the fold of the total and
then the fold of itself) and stored at index 0. -/
def setChecksum8 (b : List Nat) (numBytes : Nat) : List Nat :=
  b.set 0 (foldHigh (foldHigh (chkTotal8 b numBytes)))

/-- The running total of `setChecksum16`:
`total = sum of (buffer[i] & 0xff) for i in range(6, len(buffer))`. -/
def chkTotal16 (b : List Nat) : Nat :=
  (b.drop 6).foldl (fun t x => t + x % 256) 0

/-- `setChecksum16(buffer)` from LabJackPython.py: the total modulo 2^16 is
stored little-endian at indices 4 and 5. -/
def setChecksum16 (b : List Nat) : List Nat :=
  (b.set 4 (chkTotal16 b % 256)).set 5 (chkTotal16 b / 256 % 256)

/-- The extended-command test of `setChecksum`:
`a = (command[1] & 0x78) >> 3; a == 15`. -/
def isExtendedCmd (b : List Nat) : Bool :=
  (byteAt b 1) % 128 / 8 == 15

/-- `setChecksum(command)` from LabJackPython.py.  A command shorter than
6 bytes raises (`none`); an extended command gets a checksum16 over bytes
6.. and then a checksum8 over bytes 1..5; a short command gets a checksum8
over all bytes after index 0. -/
def setChecksum (b : List Nat) : Option (List Nat) :=
  if b.length < 6 then none
  else if isExtendedCmd b then some (setChecksum8 (setChecksum16 b) 6)
  else some (setChecksum8 b b.length)

/-- `verifyChecksum(buffer)` from LabJackPython.py: save bytes 0, 4 and 5,
recompute the checksums, and compare the three saved bytes against the
recomputed buffer. -/
def verifyChecksum (b : List Nat) : Option Bool :=
  if b.length < 6 then none
  else
    (setChecksum b).map (fun t =>
      byteAt b 0 == byteAt t 0 && byteAt b 4 == byteAt t 4
        && byteAt b 5 == byteAt t 5)

/-- The checksum value the specification describes for short commands: the
byte sum with the high byte folded back into the low byte exactly once. -/
def specOnceFoldedChecksum (b : List Nat) (numBytes : Nat) : Nat :=
  foldHigh (chkTotal8 b numBytes)

lemma chkTotal8_eq_sum (b : List Nat) (n : Nat) :
    chkTotal8 b n = (((b.take n).drop 1).map (· % 256)).sum := by
  unfold chkTotal8
  generalize (b.take n).drop 1 = l
  induction l using List.reverseRecOn with
  | nil => simp
  | append_singleton xs x ih => simp [ih]

lemma foldHigh_foldHigh (t : Nat) (h : t < 65536) :
    foldHigh (foldHigh t) = if t = 0 then 0 else (t - 1) % 255 + 1 := by
  have h1 : t / 256 % 256 = t / 256 := Nat.mod_eq_of_lt (by omega)
  unfold foldHigh
  rw [h1]
  have h2 : (t % 256 + t / 256) / 256 % 256 = (t % 256 + t / 256) / 256 :=
    Nat.mod_eq_of_lt (by omega)
  rw [h2]
  split <;> omega

lemma byteAt_set_self (b : List Nat) (i x : Nat) (h : i < b.length) :
    byteAt (b.set i x) i = x := by
  simp [byteAt, List.getD_eq_getD_get?, List.getElem?_set_eq_of_lt x h]

lemma byteAt_set_ne (b : List Nat) {i j : Nat} (x : Nat) (h : i ≠ j) :
    byteAt (b.set i x) j = byteAt b j := by
  simp [byteAt, List.getD_eq_getD_get?, List.getElem?_set_ne h]

lemma set_byteAt_self (b : List Nat) (i : Nat) (h : i < b.length) :
    b.set i (byteAt b i) = b := by
  induction b generalizing i with
  | nil => simp
  | cons a t ih =>
    cases i with
    | zero => simp [byteAt]
    | succ n => simpa [byteAt] using ih n (by simpa using h)

lemma chkTotal8_set_zero (b : List Nat) (v n : Nat) :
    chkTotal8 (b.set 0 v) n = chkTotal8 b n := by
  cases b with
  | nil => rfl
  | cons a t => cases n <;> rfl

lemma drop_set_of_lt (b : List Nat) (v : Nat) :
    ∀ i n : Nat, i < n → (b.set i v).drop n = b.drop n := by
  induction b with
  | nil => intro i n _; simp
  | cons a t ih =>
    intro i n hin
    cases i with
    | zero =>
      cases n with
      | zero => omega
      | succ m => simp
    | succ k =>
      cases n with
      | zero => omega
      | succ m => simpa using ih k m (by omega)

lemma chkTotal16_set (b : List Nat) {i : Nat} (v : Nat) (h : i < 6) :
    chkTotal16 (b.set i v) = chkTotal16 b := by
  unfold chkTotal16
  rw [drop_set_of_lt b v i 6 h]

lemma length_setChecksum8 (b : List Nat) (n : Nat) :
    (setChecksum8 b n).length = b.length := by simp [setChecksum8]

lemma length_setChecksum16 (b : List Nat) :
    (setChecksum16 b).length = b.length := by simp [setChecksum16]

lemma isExtendedCmd_set (b : List Nat) {i : Nat} (v : Nat) (h : i ≠ 1) :
    isExtendedCmd (b.set i v) = isExtendedCmd b := by
  unfold isExtendedCmd
  rw [byteAt_set_ne b v h]

/-- C3: for a non-extended command the stored checksum byte is the byte sum
folded ONCE, as the spec words it.  Refuted: with byte sum 511 the code
folds a second time (255 + 1 = 256 overflows a byte, so `setChecksum8`
folds again and stores 1, not the once-folded 256). -/
theorem checksum8_once_folded_counterexample :
    isExtendedCmd [0, 0, 255, 255, 1, 0] = false ∧
    setChecksum [0, 0, 255, 255, 1, 0] = some [1, 0, 255, 255, 1, 0] ∧
    specOnceFoldedChecksum [0, 0, 255, 255, 1, 0] 6 = 256 ∧
    byteAt [1, 0, 255, 255, 1, 0] 0 ≠
      specOnceFoldedChecksum [0, 0, 255, 255, 1, 0] 6 := by
  refine ⟨rfl, rfl, rfl, ?_⟩
  decide

/-- C3 (amended): for every non-extended command buffer of length at least 6
whose byte sum is below 2^16, the checksum byte stored at index 0 is the byte
sum folded TWICE (the second fold absorbs the carry of the first);
equivalently it is the byte sum reduced modulo 255, with 255 standing in for
0 whenever the sum is nonzero. -/
theorem checksum8_twice_folded (b : List Nat) (h6 : 6 ≤ b.length)
    (hext : isExtendedCmd b = false)
    (hlt : chkTotal8 b b.length < 65536) :
    setChecksum b =
      some (b.set 0 (if chkTotal8 b b.length = 0 then 0
        else (chkTotal8 b b.length - 1) % 255 + 1)) := by
  unfold setChecksum
  rw [if_neg (by omega), hext]
  simp only [Bool.false_eq_true, if_false, setChecksum8,
    foldHigh_foldHigh _ hlt]

/-- Witness for C3 (amended) at the buffer `[0, 0, 255, 255, 1, 0]`
(byte sum 511, stored checksum (511 - 1) % 255 + 1 = 1). -/
theorem checksum8_twice_folded_witness :
    setChecksum [0, 0, 255, 255, 1, 0] =
      some (List.set [0, 0, 255, 255, 1, 0] 0
        (if chkTotal8 [0, 0, 255, 255, 1, 0] 6 = 0 then 0
          else (chkTotal8 [0, 0, 255, 255, 1, 0] 6 - 1) % 255 + 1)) :=
  checksum8_twice_folded [0, 0, 255, 255, 1, 0] (by decide) (by decide)
    (by decide)

lemma drop_one_set (l : List Nat) (i x : Nat) (h : 1 ≤ i) :
    (l.set i x).drop 1 = (l.drop 1).set (i - 1) x := by
  cases l with
  | nil => simp
  | cons a t =>
    cases i with
    | zero => omega
    | succ k => simp

lemma byteAt_drop (b : List Nat) (k j : Nat) :
    byteAt (b.drop k) j = byteAt b (k + j) := by
  simp [byteAt, List.getD_eq_getD_get?, List.getElem?_drop]

lemma sum_map_mod_set (l : List Nat) :
    ∀ i x, i < l.length →
      ((l.set i x).map (· % 256)).sum + (byteAt l i) % 256 =
        (l.map (· % 256)).sum + x % 256 := by
  induction l with
  | nil => intro i x h; simp at h
  | cons a t ih =>
    intro i x h
    cases i with
    | zero => simp [byteAt]; omega
    | succ k =>
      have h2 := ih k x (by simpa using h)
      simp only [List.set_cons_succ, List.map_cons, List.sum_cons,
        byteAt, List.getD_cons_succ] at h2 ⊢
      omega

lemma sum_map_mod_le (l : List Nat) :
    (l.map (· % 256)).sum ≤ 255 * l.length := by
  induction l with
  | nil => simp
  | cons a t ih =>
    simp only [List.map_cons, List.sum_cons, List.length_cons]
    have : a % 256 ≤ 255 := by omega
    omega

lemma setChecksum_some_length (b c : List Nat) (h : setChecksum b = some c) :
    c.length = b.length ∧ 6 ≤ b.length := by
  unfold setChecksum at h
  split at h
  · exact absurd h (by simp)
  · split at h <;>
      simpa [← Option.some_inj.mp h, setChecksum8, setChecksum16] using by omega

/-- Applying `setChecksum` to an already-checksummed buffer reproduces it. -/
lemma setChecksum_idem (b c : List Nat) (h : setChecksum b = some c) :
    setChecksum c = some c := by
  obtain ⟨hlen, h6⟩ := setChecksum_some_length b c h
  unfold setChecksum at h
  rw [if_neg (by omega)] at h
  unfold setChecksum
  rw [if_neg (by omega)]
  split at h
  case isTrue hx =>
    -- extended command: c = setChecksum8 (setChecksum16 b) 6
    have hc : c = ((b.set 4 (chkTotal16 b % 256)).set 5
        (chkTotal16 b / 256 % 256)).set 0
        (foldHigh (foldHigh (chkTotal8 ((b.set 4 (chkTotal16 b % 256)).set 5
          (chkTotal16 b / 256 % 256)) 6))) := by
      simpa [setChecksum8, setChecksum16] using (Option.some_inj.mp h).symm
    have hlb : 6 ≤ c.length := by omega
    have hce : isExtendedCmd c = true := by
      rw [hc, isExtendedCmd_set _ _ (by omega), isExtendedCmd_set _ _ (by omega),
        isExtendedCmd_set _ _ (by omega)]
      exact hx
    rw [if_pos hce]
    have h16 : chkTotal16 c = chkTotal16 b := by
      rw [hc, chkTotal16_set _ _ (by omega), chkTotal16_set _ _ (by omega),
        chkTotal16_set _ _ (by omega)]
    have hb4 : byteAt c 4 = chkTotal16 b % 256 := by
      rw [hc, byteAt_set_ne _ _ (by omega), byteAt_set_ne _ _ (by omega),
        byteAt_set_self _ _ _ (by omega)]
    have hb5 : byteAt c 5 = chkTotal16 b / 256 % 256 := by
      rw [hc, byteAt_set_ne _ _ (by omega),
        byteAt_set_self _ _ _ (by simp only [List.length_set]; omega)]
    have hset16 : setChecksum16 c = c := by
      unfold setChecksum16
      rw [h16, ← hb4, set_byteAt_self _ _ (by omega)]
      rw [← hb5, set_byteAt_self _ _ (by omega)]
    rw [hset16]
    have hb0 : byteAt c 0 = foldHigh (foldHigh (chkTotal8 c 6)) := by
      conv_lhs => rw [hc]
      rw [byteAt_set_self _ _ _ (by simp; omega)]
      have : chkTotal8 c 6 =
          chkTotal8 ((b.set 4 (chkTotal16 b % 256)).set 5
            (chkTotal16 b / 256 % 256)) 6 := by
        rw [hc, chkTotal8_set_zero]
      rw [this]
    unfold setChecksum8
    rw [← hb0, set_byteAt_self _ _ (by omega)]
  case isFalse hx =>
    -- short command: c = setChecksum8 b b.length
    have hc : c = b.set 0 (foldHigh (foldHigh (chkTotal8 b b.length))) := by
      simpa [setChecksum8] using (Option.some_inj.mp h).symm
    have hce : isExtendedCmd c = false := by
      rw [hc, isExtendedCmd_set _ _ (by omega)]
      simpa using hx
    rw [if_neg (by simp [hce])]
    have ht : chkTotal8 c c.length = chkTotal8 b b.length := by
      rw [hlen, hc, chkTotal8_set_zero]
    have hb0 : byteAt c 0 = foldHigh (foldHigh (chkTotal8 c c.length)) := by
      rw [ht, hc, byteAt_set_self _ _ _ (by omega)]
    unfold setChecksum8
    rw [← hb0, set_byteAt_self _ _ (by omega)]

lemma verify_of_fixed (c : List Nat) (h6 : 6 ≤ c.length)
    (h : setChecksum c = some c) : verifyChecksum c = some true := by
  unfold verifyChecksum
  rw [if_neg (by omega), h]
  simp

/-- C4: single-byte sensitivity of `verifyChecksum` is refuted.  Starting
from the checksummed short command `[255, 0, 255, 0, 0, 0]` (byte sum 255),
changing byte 3 from 0 to 255 shifts the byte sum to 510, whose twice-folded
checksum is again 255, so the corrupted buffer still verifies. -/
theorem verify_mutation_counterexample :
    setChecksum [0, 0, 255, 0, 0, 0] = some [255, 0, 255, 0, 0, 0] ∧
    ([255, 0, 255, 0, 0, 0] : List Nat).set 3 255 =
      [255, 0, 255, 255, 0, 0] ∧
    byteAt [255, 0, 255, 0, 0, 0] 3 ≠ 255 ∧
    verifyChecksum [255, 0, 255, 255, 0, 0] = some true := by
  refine ⟨by decide, by decide, by decide, by decide⟩

/-- C4 (amended): (round trip) `verifyChecksum` accepts every buffer
produced by `setChecksum`; (sensitivity, corrected scope) for a non-extended
command of byte values and length ≤ 257 whose mutation keeps the command
nibble non-extended, a single-byte change at a non-checksum position is
detected UNLESS it swaps a byte between 0 and 255 — such a swap moves the
byte sum by exactly 255 and the folded checksum is blind to it. -/
theorem checksum_roundtrip_and_sensitivity :
    (∀ b c : List Nat, setChecksum b = some c →
      verifyChecksum c = some true) ∧
    (∀ b c : List Nat, ∀ i x : Nat,
      b.length ≤ 257 → (∀ y ∈ b, y < 256) → x < 256 →
      isExtendedCmd b = false → setChecksum b = some c →
      1 ≤ i → i < b.length →
      x ≠ byteAt b i →
      ¬(x = 0 ∧ byteAt b i = 255) → ¬(x = 255 ∧ byteAt b i = 0) →
      isExtendedCmd (c.set i x) = false →
      verifyChecksum (c.set i x) = some false) := by
  constructor
  · intro b c hset
    obtain ⟨hlen, h6⟩ := setChecksum_some_length b c hset
    exact verify_of_fixed c (by omega) (setChecksum_idem b c hset)
  · intro b c i x hlen257 hbytes hx256 hext hset h1i hilen hxne hswap0 hswap255
      hmext
    obtain ⟨hlen, h6⟩ := setChecksum_some_length b c hset
    unfold setChecksum at hset
    rw [if_neg (by omega), hext] at hset
    simp only [Bool.false_eq_true, if_false, Option.some_inj] at hset
    -- c is b with the twice-folded checksum at byte 0
    have hc : c = b.set 0 (foldHigh (foldHigh (chkTotal8 b b.length))) :=
      hset.symm
    set t := chkTotal8 b b.length with ht
    set y := byteAt b i with hy
    -- the mutated buffer and its recomputed byte sum
    have hmlen : (c.set i x).length = b.length := by
      rw [List.length_set]; omega
    have hswap : chkTotal8 (c.set i x) ((c.set i x).length) + y % 256 =
        t + x % 256 := by
      rw [hmlen, hc, List.set_comm _ _ _ (by omega), chkTotal8_set_zero,
        chkTotal8_eq_sum, ht, chkTotal8_eq_sum]
      rw [List.take_length, List.set_take, List.take_length,
        drop_one_set _ _ _ h1i]
      have hmem : i - 1 < (b.drop 1).length := by
        rw [List.length_drop]; omega
      have := sum_map_mod_set (b.drop 1) (i - 1) x hmem
      rw [byteAt_drop] at this
      have hi1 : 1 + (i - 1) = i := by omega
      rw [hi1] at this
      exact this
    set t' := chkTotal8 (c.set i x) ((c.set i x).length) with ht'
    -- byte-sum bounds from the byte-valued entries and the length bound
    have htle : t ≤ 255 * 256 := by
      rw [ht, chkTotal8_eq_sum, List.take_length]
      calc ((b.drop 1).map (· % 256)).sum ≤ 255 * (b.drop 1).length :=
            sum_map_mod_le _
        _ ≤ 255 * 256 := by
            rw [List.length_drop]
            have : b.length - 1 ≤ 256 := by omega
            exact Nat.mul_le_mul_left 255 this
    have hylt : y < 256 := by
      have : y = b[i] := by
        rw [hy, byteAt, List.getD_eq_getElem b 0 hilen]
      rw [this]
      exact hbytes _ (List.getElem_mem hilen)
    have ht'le : t' < 65536 := by omega
    have htlt : t < 65536 := by omega
    -- the stored checksum and the recomputed one differ
    unfold verifyChecksum
    rw [if_neg (by omega)]
    unfold setChecksum
    rw [if_neg (by omega), hmext]
    simp only [Bool.false_eq_true, if_false]
    have hb0m : byteAt (c.set i x) 0 = foldHigh (foldHigh t) := by
      rw [byteAt_set_ne _ _ (by omega), hc,
        byteAt_set_self _ _ _ (by omega)]
    have hb0r : byteAt (setChecksum8 (c.set i x) ((c.set i x).length)) 0 =
        foldHigh (foldHigh t') := by
      unfold setChecksum8
      rw [byteAt_set_self _ _ _ (by simp only [List.length_set]; omega)]
    have hneq : foldHigh (foldHigh t) ≠ foldHigh (foldHigh t') := by
      rw [foldHigh_foldHigh _ htlt, foldHigh_foldHigh _ ht'le]
      have hy256 : y % 256 = y := Nat.mod_eq_of_lt hylt
      have hx256e : x % 256 = x := Nat.mod_eq_of_lt hx256
      rw [hy256, hx256e] at hswap
      split <;> split <;> omega
    rw [Option.map_some', hb0m, hb0r]
    have hfb : (foldHigh (foldHigh t) == foldHigh (foldHigh t')) = false := by
      simpa using hneq
    simp [hfb]

/-- Witness for C4 (amended): the round trip accepts the checksummed
buffer `[255, 0, 255, 0, 0, 0]`, and changing its byte 3 from 0 to 254
(not a 0 ↔ 255 swap) is caught. -/
theorem checksum_roundtrip_and_sensitivity_witness :
    verifyChecksum [255, 0, 255, 0, 0, 0] = some true ∧
    verifyChecksum (([255, 0, 255, 0, 0, 0] : List Nat).set 3 254) =
      some false :=
  ⟨checksum_roundtrip_and_sensitivity.1 [0, 0, 255, 0, 0, 0]
      [255, 0, 255, 0, 0, 0] (by decide),
    checksum_roundtrip_and_sensitivity.2 [0, 0, 255, 0, 0, 0]
      [255, 0, 255, 0, 0, 0] 3 254 (by decide) (by decide) (by decide)
      (by decide) (by decide) (by decide) (by decide) (by decide)
      (by decide) (by decide) (by decide)⟩

/-! ## Feedback packet builder (u3.py / u6.py)

A feedback commandlist is a tree: each element is either a
`FeedbackCommand` (contributing `cmdBytes` to the outgoing packet and
claiming `readLen` bytes of the response) or a nested list.  The decoder
(`cmd.handle`) is abstracted to the slice of the response it is applied
to, which is what the ordering/offset claims are about. -/

inductive FeedbackItem where
  | cmd (cmdBytes : List Nat) (readLen : Nat)
  | node (sub : List FeedbackItem)
deriving Repr

/-- `U3._buildBuffer` / `U6._buildBuffer`: accumulate outgoing bytes and the
expected response length by visiting the commandlist, recursing into nested
lists with the accumulated state threaded through. -/
def buildBuffer : List Nat → Nat → List FeedbackItem → List Nat × Nat
  | sendBuffer, readLen, [] => (sendBuffer, readLen)
  | sendBuffer, readLen, .cmd bytes rl :: rest =>
      buildBuffer (sendBuffer ++ bytes) (readLen + rl) rest
  | sendBuffer, readLen, .node sub :: rest =>
      let p := buildBuffer sendBuffer readLen sub
      buildBuffer p.1 p.2 rest

/-- `U3._buildFeedbackResults` / `U6._buildFeedbackResults`: slice the
response buffer per command.  For a `FeedbackCommand` the slice
`rcvBuffer[i:i+cmd.readLen]` is recorded and `i` advances; for a nested
list the source recurses into the sub-list but does NOT advance `i`
afterwards (the recursive call's cursor is discarded). -/
def buildFeedbackResults (rcv : List Nat) :
    List FeedbackItem → List (List Nat) → Nat → List (List Nat)
  | [], results, _ => results
  | .cmd _ rl :: rest, results, i =>
      buildFeedbackResults rcv rest (results ++ [(rcv.drop i).take rl]) (i + rl)
  | .node sub :: rest, results, i =>
      buildFeedbackResults rcv rest (buildFeedbackResults rcv sub results i) i

/-- Left-to-right flattening of a commandlist into (cmdBytes, readLen)
pairs, as the spec describes the serialization order. -/
def flattenItems : List FeedbackItem → List (List Nat × Nat)
  | [] => []
  | .cmd b rl :: rest => (b, rl) :: flattenItems rest
  | .node sub :: rest => flattenItems sub ++ flattenItems rest

/-- The response slices the claim prescribes: each sub-command decodes the
slice starting at the cumulative offset of all previously consumed
sub-commands, for its declared read length. -/
def specSlices (rcv : List Nat) : Nat → List (List Nat × Nat) → List (List Nat)
  | _, [] => []
  | i, (_, rl) :: rest => (rcv.drop i).take rl :: specSlices rcv (i + rl) rest

/-- C1: serialization is indeed left-to-right over the flattened list, and
decoding yields one result per sub-command in order — but the decode offset
is NOT cumulative once a nested sub-list is followed by another
sub-command, because `_buildFeedbackResults` discards the cursor advanced
inside a nested list.  With commandlist
`[cmd a (1 byte), [cmd b (1 byte)], cmd c (1 byte)]` and response bytes
100, 101, 102 at offsets 9, 10, 11, the builder expects 12 response bytes
(so byte 102 is on the wire for the third command), yet the parser hands
the third decoder the slice `[101]` again instead of `[102]`. -/
theorem feedback_nested_offset_bug :
    buildBuffer [0, 248, 0, 0, 0, 0, 0] 9
        [.cmd [16] 1, .node [.cmd [17] 1], .cmd [18] 1] =
      ([0, 248, 0, 0, 0, 0, 0, 16, 17, 18], 12) ∧
    buildFeedbackResults [0, 248, 3, 0, 0, 0, 0, 0, 0, 100, 101, 102]
        [.cmd [16] 1, .node [.cmd [17] 1], .cmd [18] 1] [] 9 =
      [[100], [101], [101]] ∧
    specSlices [0, 248, 3, 0, 0, 0, 0, 0, 0, 100, 101, 102] 9
        (flattenItems [.cmd [16] 1, .node [.cmd [17] 1], .cmd [18] 1]) =
      [[100], [101], [102]] ∧
    buildFeedbackResults [0, 248, 3, 0, 0, 0, 0, 0, 0, 100, 101, 102]
        [.cmd [16] 1, .node [.cmd [17] 1], .cmd [18] 1] [] 9 ≠
      specSlices [0, 248, 3, 0, 0, 0, 0, 0, 0, 100, 101, 102] 9
        (flattenItems [.cmd [16] 1, .node [.cmd [17] 1], .cmd [18] 1]) := by
  refine ⟨?_, ?_, ?_, ?_⟩ <;>
    simp [buildBuffer, buildFeedbackResults, specSlices, flattenItems]

/-- The common framing stage of `U3.getFeedback` and `U6.getFeedback`
(the two bodies are textually identical here): start from a 7-byte header
with `0xF8` at index 1 and an expected response length of 9, accumulate the
commandlist, pad the outgoing buffer to even length, store
`len(sendBuffer)/2 - 3` at index 2, and round the expected response length
up to even. -/
def feedbackFrame (cl : List FeedbackItem) : List Nat × Nat :=
  let p := buildBuffer [0, 0xF8, 0, 0, 0, 0, 0] 9 cl
  let sendBuffer := if p.1.length % 2 = 1 then p.1 ++ [0] else p.1
  let sendBuffer := sendBuffer.set 2 (sendBuffer.length / 2 - 3)
  let readLen := if p.2 % 2 = 1 then p.2 + 1 else p.2
  (sendBuffer, readLen)

/-- `MAX_USB_PACKET_LENGTH` from LabJackPython.py. -/
def MAX_USB_PACKET_LENGTH : Nat := 64

/-- The pre-I/O stage of `U3.getFeedback`: after framing, the outgoing
length and then the padded response length are checked against
`MAX_USB_PACKET_LENGTH`, and a `LabJackException` is raised before
`_writeRead` is ever called. -/
def u3GetFeedbackPre (cl : List FeedbackItem) :
    Except String (List Nat × Nat) :=
  let f := feedbackFrame cl
  if MAX_USB_PACKET_LENGTH < f.1.length then
    Except.error "feedback command bigger than 64 bytes"
  else if MAX_USB_PACKET_LENGTH < f.2 then
    Except.error "feedback response bigger than 64 bytes"
  else Except.ok f

/-- The packets `U3.getFeedback` hands to the transport: none when a size
check fails, otherwise the framed packet. -/
def u3FeedbackWrites (cl : List FeedbackItem) : List (List Nat) :=
  match u3GetFeedbackPre cl with
  | Except.error _ => []
  | Except.ok f => [f.1]

/-- The packets `U6.getFeedback` hands to the transport: the source has no
size check at all — `self.write(sendBuffer)` follows the framing
unconditionally. -/
def u6FeedbackWrites (cl : List FeedbackItem) : List (List Nat) :=
  [(feedbackFrame cl).1]

/-- C6: the fail-fast-on-oversize claim is refuted for `U6.getFeedback`:
a single sub-command contributing 60 outgoing bytes frames to a 68-byte
packet (> 64), and U6 writes it to the transport anyway. -/
theorem u6_feedback_oversize_counterexample :
    64 < (feedbackFrame [.cmd (List.replicate 60 1) 0]).1.length ∧
    u6FeedbackWrites [.cmd (List.replicate 60 1) 0] =
      [(feedbackFrame [.cmd (List.replicate 60 1) 0]).1] := by
  constructor
  · simp [feedbackFrame, buildBuffer]
  · rfl

/-- C6 (amended): `U3.getFeedback` raises before any transport I/O
whenever the framed outgoing packet or the padded expected response
exceeds 64 bytes; `U6.getFeedback` performs no such check and writes the
oversized packet (see the counterexample). -/
theorem u3_feedback_oversize_fails_fast (cl : List FeedbackItem)
    (h : 64 < (feedbackFrame cl).1.length ∨ 64 < (feedbackFrame cl).2) :
    (∃ msg, u3GetFeedbackPre cl = Except.error msg) ∧
      u3FeedbackWrites cl = [] := by
  unfold u3FeedbackWrites u3GetFeedbackPre
  rcases h with h | h
  · rw [if_pos (by simpa [MAX_USB_PACKET_LENGTH] using h)]
    exact ⟨⟨_, rfl⟩, rfl⟩
  · by_cases h1 : MAX_USB_PACKET_LENGTH < (feedbackFrame cl).1.length
    · rw [if_pos h1]
      exact ⟨⟨_, rfl⟩, rfl⟩
    · rw [if_neg h1, if_pos (by simpa [MAX_USB_PACKET_LENGTH] using h)]
      exact ⟨⟨_, rfl⟩, rfl⟩

/-- Witness for C6 (amended): the 68-byte frame is rejected by U3 with no
write. -/
theorem u3_feedback_oversize_fails_fast_witness :
    (∃ msg, u3GetFeedbackPre [.cmd (List.replicate 60 1) 0] =
      Except.error msg) ∧
    u3FeedbackWrites [.cmd (List.replicate 60 1) 0] = [] :=
  u3_feedback_oversize_fails_fast [.cmd (List.replicate 60 1) 0]
    (Or.inl (by simp [feedbackFrame, buildBuffer]))

/-! ## Streaming read loop (`Device.streamData` in LabJackPython.py)

One block returned by `read` holds `len(result) // numBytes` sub-packets of
`numBytes` bytes each.  Per sub-packet the loop reads the error byte at
offset 11 and, for the autorecover code 60, the little-endian 32-bit
dropped-sample count at offsets 6..9. -/

/-- `unpack('<I', ...)` over four bytes. -/
def le32 (b0 b1 b2 b3 : Nat) : Nat :=
  b0 + 256 * b1 + 65536 * b2 + 16777216 * b3

/-- One iteration of the `for i in range(numPackets)` loop of
`Device.streamData`, acting on the `(errors, missed)` accumulator. -/
def streamStep (result : List Nat) (numBytes : Nat) (em : Nat × Nat)
    (i : Nat) : Nat × Nat :=
  let e := byteAt result (11 + i * numBytes)
  if e ≠ 0 then
    (em.1 + 1,
     if e = 60 then
       em.2 + le32 (byteAt result (6 + i * numBytes))
         (byteAt result (7 + i * numBytes))
         (byteAt result (8 + i * numBytes))
         (byteAt result (9 + i * numBytes))
     else em.2)
  else em

/-- The `(errors, missed)` totals `Device.streamData` accumulates over one
block. -/
def streamErrorsMissed (result : List Nat) (numBytes : Nat) : Nat × Nat :=
  (List.range (result.length / numBytes)).foldl
    (streamStep result numBytes) (0, 0)

/-- The per-request dictionary `streamData` yields (convert=False path).
`result` keeps the raw bytes for deferred conversion. -/
structure StreamBlock where
  numPackets : Nat
  errors : Nat
  missed : Nat
  firstPacket : Nat
  result : List Nat
deriving Repr, DecidableEq

/-- One pass of the `while True` body of `Device.streamData`: an error is
raised if streaming was not started; a zero-length read yields the
explicit no-data marker `none`; otherwise the block statistics are
computed and yielded — no nonzero error byte ever raises. -/
def streamDataBlock (streamStarted : Bool) (result : List Nat)
    (numBytes : Nat) : Except String (Option StreamBlock) :=
  if !streamStarted then
    Except.error "Please start streaming before reading."
  else if result.length = 0 then Except.ok none
  else
    let em := streamErrorsMissed result numBytes
    Except.ok (some ⟨result.length / numBytes, em.1, em.2,
      byteAt result 10, result⟩)

/-- The error byte of one stream sub-packet (offset 11). -/
def packetErrByte (p : List Nat) : Nat := byteAt p 11

/-- The 32-bit little-endian dropped-sample count carried at offsets 6..9
of an autorecover sub-packet. -/
def packetMissedCount (p : List Nat) : Nat :=
  le32 (byteAt p 6) (byteAt p 7) (byteAt p 8) (byteAt p 9)

lemma byteAt_append_left (l l' : List Nat) (n : Nat) (h : n < l.length) :
    byteAt (l ++ l') n = byteAt l n :=
  List.getD_append l l' 0 n h

lemma byteAt_append_right (l l' : List Nat) (n : Nat) (h : l.length ≤ n) :
    byteAt (l ++ l') n = byteAt l' (n - l.length) :=
  List.getD_append_right l l' 0 n h

lemma foldl_ext_mem {α β : Type} (f g : β → α → β) (init : β) (l : List α)
    (h : ∀ b : β, ∀ x ∈ l, f b x = g b x) :
    l.foldl f init = l.foldl g init := by
  induction l generalizing init with
  | nil => rfl
  | cons a t ih =>
    simp only [List.foldl_cons]
    rw [h init a (by simp)]
    exact ih _ (fun b x hx => h b x (by simp [hx]))

lemma join_length_uniform (packets : List (List Nat)) (nb : Nat)
    (h : ∀ p ∈ packets, p.length = nb) :
    packets.join.length = packets.length * nb := by
  induction packets with
  | nil => simp
  | cons p ps ih =>
    simp only [List.join_cons, List.length_append, List.length_cons]
    rw [h p (by simp), ih (fun q hq => h q (by simp [hq]))]
    ring

lemma streamStep_append_frozen (ps : List (List Nat)) (p : List Nat)
    (nb : Nat) (h : ∀ q ∈ ps, q.length = nb) (em : Nat × Nat) (i : Nat)
    (hi : i < ps.length) (hnb : 12 ≤ nb) :
    streamStep (ps.join ++ p) nb em i = streamStep ps.join nb em i := by
  have hlen := join_length_uniform ps nb h
  have hb : ∀ k, k < 12 → byteAt (ps.join ++ p) (k + i * nb) =
      byteAt ps.join (k + i * nb) := by
    intro k hk
    apply byteAt_append_left
    rw [hlen]
    calc k + i * nb < nb + i * nb := by omega
      _ ≤ ps.length * nb := by
          have : i + 1 ≤ ps.length := hi
          calc nb + i * nb = (i + 1) * nb := by ring
            _ ≤ ps.length * nb := Nat.mul_le_mul_right nb this
  unfold streamStep
  rw [hb 11 (by omega), hb 6 (by omega), hb 7 (by omega), hb 8 (by omega),
    hb 9 (by omega)]

/-- Characterization of `streamErrorsMissed` over a whole number of
uniform sub-packets: `errors` counts the sub-packets with a nonzero error
byte, and `missed` sums the little-endian counts of the sub-packets whose
error byte is the autorecover code 60. -/
lemma streamErrorsMissed_join (packets : List (List Nat)) (nb : Nat)
    (hnb : 12 ≤ nb) (h : ∀ p ∈ packets, p.length = nb) :
    streamErrorsMissed packets.join nb =
      (packets.countP (fun p => packetErrByte p != 0),
       (packets.map (fun p =>
         if packetErrByte p = 60 then packetMissedCount p else 0)).sum) := by
  induction packets using List.reverseRecOn with
  | nil => simp [streamErrorsMissed]
  | append_singleton ps p ih =>
    have hps : ∀ q ∈ ps, q.length = nb := fun q hq => h q (by simp [hq])
    have hp : p.length = nb := h p (by simp)
    have hlen := join_length_uniform ps nb hps
    have hjoin : (ps ++ [p]).join = ps.join ++ p := by
      simp
    have hnum : (ps.join ++ p).length / nb = ps.length + 1 := by
      rw [List.length_append, hlen, hp]
      have he : ps.length * nb + nb = (ps.length + 1) * nb := by ring
      rw [he, Nat.mul_div_left _ (by omega : 0 < nb)]
    unfold streamErrorsMissed
    rw [hjoin, hnum, List.range_succ, List.foldl_append]
    have hfrozen : (List.range ps.length).foldl
        (streamStep (ps.join ++ p) nb) (0, 0) =
        (List.range ps.length).foldl (streamStep ps.join nb) (0, 0) := by
      apply foldl_ext_mem
      intro em i hi
      exact streamStep_append_frozen ps p nb hps em i
        (List.mem_range.mp hi) hnb
    rw [hfrozen]
    have hrec : (List.range ps.length).foldl (streamStep ps.join nb) (0, 0) =
        (ps.countP (fun q => packetErrByte q != 0),
         (ps.map (fun q =>
           if packetErrByte q = 60 then packetMissedCount q else 0)).sum) := by
      have := ih hps
      unfold streamErrorsMissed at this
      rw [hlen, Nat.mul_div_left _ (by omega : 0 < nb)] at this
      exact this
    rw [List.foldl_cons, List.foldl_nil, hrec]
    have hlast : ∀ k, k < 12 → byteAt (ps.join ++ p) (k + ps.length * nb) =
        byteAt p k := by
      intro k hk
      rw [byteAt_append_right _ _ _ (by omega), hlen]
      congr 1
      omega
    unfold streamStep
    rw [hlast 11 (by omega), hlast 6 (by omega), hlast 7 (by omega),
      hlast 8 (by omega), hlast 9 (by omega)]
    by_cases he : byteAt p 11 = 0
    · simp [he, packetErrByte, packetMissedCount]
    · by_cases h60 : byteAt p 11 = 60
      · simp [he, h60, packetErrByte, packetMissedCount, le32]
      · simp [he, h60, packetErrByte, packetMissedCount]

/-- C2: over any nonempty block of uniform sub-packets, `streamData`
returns normally (never raises on a nonzero error byte): a sub-packet with
autorecover code 60 adds its little-endian 32-bit payload count at offsets
6..9 to `missed`, every sub-packet with a nonzero error byte is counted in
`errors`, and both totals are surfaced in the yielded result. -/
theorem streamData_autorecover_no_raise (packets : List (List Nat))
    (nb : Nat) (hnb : 14 ≤ nb) (h : ∀ p ∈ packets, p.length = nb)
    (hne : packets ≠ []) :
    streamDataBlock true packets.join nb =
      Except.ok (some ⟨packets.length,
        packets.countP (fun p => packetErrByte p != 0),
        (packets.map (fun p =>
          if packetErrByte p = 60 then packetMissedCount p else 0)).sum,
        byteAt packets.join 10,
        packets.join⟩) := by
  have hlen := join_length_uniform packets nb h
  have hpos : ¬(packets.join.length = 0) := by
    rw [hlen]
    have h1 : 0 < packets.length := List.length_pos.mpr hne
    have := Nat.mul_pos h1 (by omega : 0 < nb)
    omega
  unfold streamDataBlock
  rw [if_neg (by simp), if_neg hpos]
  rw [streamErrorsMissed_join packets nb (by omega) h]
  rw [hlen, Nat.mul_div_left _ (by omega : 0 < nb)]

/-- Witness for C2: a three-packet block (16 bytes per packet) whose first
packet reports autorecover with a dropped count of 5, second reports error
code 1, third is clean: no exception, errors = 2, missed = 5. -/
theorem streamData_autorecover_no_raise_witness :
    streamDataBlock true
      ([[0, 0, 0, 0, 0, 0, 5, 0, 0, 0, 7, 60, 0, 0, 0, 0],
        [0, 0, 0, 0, 0, 0, 0, 0, 0, 0, 8, 1, 0, 0, 0, 0],
        [0, 0, 0, 0, 0, 0, 0, 0, 0, 0, 9, 0, 0, 0, 0, 0]] :
        List (List Nat)).join 16 =
      Except.ok (some ⟨3, 2, 5, 7,
        ([[0, 0, 0, 0, 0, 0, 5, 0, 0, 0, 7, 60, 0, 0, 0, 0],
          [0, 0, 0, 0, 0, 0, 0, 0, 0, 0, 8, 1, 0, 0, 0, 0],
          [0, 0, 0, 0, 0, 0, 0, 0, 0, 0, 9, 0, 0, 0, 0, 0]] :
          List (List Nat)).join⟩) := by
  rw [streamData_autorecover_no_raise _ 16 (by omega) (by decide) (by decide)]
  rfl

/-- C10: the `errors` total counts every sub-packet with a nonzero error
byte including autorecover reports: appending a sub-packet with error byte
60 to a block increments `errors` by one AND increments `missed` by its
payload count. -/
theorem autorecover_increments_error_count (packets : List (List Nat))
    (p : List Nat) (nb : Nat) (hnb : 14 ≤ nb)
    (h : ∀ q ∈ packets, q.length = nb) (hp : p.length = nb)
    (h60 : packetErrByte p = 60) :
    (streamErrorsMissed ((packets ++ [p]).join) nb).1 =
      (streamErrorsMissed packets.join nb).1 + 1 ∧
    (streamErrorsMissed ((packets ++ [p]).join) nb).2 =
      (streamErrorsMissed packets.join nb).2 + packetMissedCount p := by
  have hall : ∀ q ∈ packets ++ [p], q.length = nb := by
    intro q hq
    rcases List.mem_append.mp hq with hq | hq
    · exact h q hq
    · simp only [List.mem_singleton] at hq
      rw [hq, hp]
  rw [streamErrorsMissed_join _ nb (by omega) hall,
    streamErrorsMissed_join packets nb (by omega) h]
  constructor
  · simp [List.countP_append, List.countP_cons, h60]
  · simp [h60]

/-- Witness for C10: one autorecover packet (count 5) appended to the empty
block yields errors = 1 and missed = 5. -/
theorem autorecover_increments_error_count_witness :
    (streamErrorsMissed
      (([] ++ [[0, 0, 0, 0, 0, 0, 5, 0, 0, 0, 7, 60, 0, 0, 0, 0]] :
        List (List Nat)).join) 16).1 =
      (streamErrorsMissed (([] : List (List Nat)).join) 16).1 + 1 ∧
    (streamErrorsMissed
      (([] ++ [[0, 0, 0, 0, 0, 0, 5, 0, 0, 0, 7, 60, 0, 0, 0, 0]] :
        List (List Nat)).join) 16).2 =
      (streamErrorsMissed (([] : List (List Nat)).join) 16).2 +
        packetMissedCount [0, 0, 0, 0, 0, 0, 5, 0, 0, 0, 7, 60, 0, 0, 0, 0] :=
  autorecover_increments_error_count []
    [0, 0, 0, 0, 0, 0, 5, 0, 0, 0, 7, 60, 0, 0, 0, 0] 16 (by omega)
    (by decide) (by decide) (by decide)

/-! ## Stream reassembly (`U3.processStreamData`, u3.py)

`processStreamData` walks the block packet by packet and sample by sample,
assigning each 2-byte sample to `streamChannelNumbers[streamPacketOffset]`
with the offset threaded through both loops (and kept on the device object
across calls; `streamStart` resets it to 0).  The signed/unsigned unpack
and the calibration conversion act on the sample value only, never on the
channel assignment, so a processed sample is modelled as the pair
(channel number, raw 2-byte slice) and the grouping into the
`defaultdict` is represented by the ordered list of those pairs. -/

/-- `Device.breakupPackets`: yield consecutive `numBytesPerPacket`-byte
chunks while a whole chunk remains (`while end <= len(packets)`). -/
def breakupPackets (packets : List Nat) (numBytesPerPacket : Nat) :
    List (List Nat) :=
  if h : 0 < numBytesPerPacket ∧ numBytesPerPacket ≤ packets.length then
    packets.take numBytesPerPacket ::
      breakupPackets (packets.drop numBytesPerPacket) numBytesPerPacket
  else []
termination_by packets.length
decreasing_by simp only [List.length_drop]; omega

/-- The `l[i:i+2]` chunks of `Device.samplesFromPacket`'s loop
(`range(0, len(l), 2)`): a trailing odd byte yields a 1-byte slice. -/
def chunkPairs : List Nat → List (List Nat)
  | [] => []
  | [a] => [[a]]
  | a :: b :: rest => [a, b] :: chunkPairs rest

/-- `Device.samplesFromPacket`: the 2-byte samples of
`packet[HEADER_SIZE:-FOOTER_SIZE]` = `packet[12:-2]`. -/
def samplesFromPacket (packet : List Nat) : List (List Nat) :=
  chunkPairs ((packet.drop 12).take ((packet.drop 12).length - 2))

/-- The inner sample loop of `U3.processStreamData`: reset the cursor to 0
when it has run past the channel list, assign the sample to
`streamChannelNumbers[cursor]`, advance the cursor. -/
def u3ProcessSamples (channels : List Nat) :
    Nat → List (List Nat) → List (Nat × List Nat) × Nat
  | off, [] => ([], off)
  | off, s :: rest =>
      let off' := if channels.length ≤ off then 0 else off
      let r := u3ProcessSamples channels (off' + 1) rest
      ((channels.getD off' 0, s) :: r.1, r.2)

/-- `U3.processStreamData`: the packet loop, with the channel cursor
threaded from each packet into the next (the source keeps it in
`self.streamPacketOffset`, which the packet loop never resets). -/
def u3ProcessStreamData (channels : List Nat) (off : Nat)
    (result : List Nat) (numBytes : Nat) : List (Nat × List Nat) × Nat :=
  (breakupPackets result numBytes).foldl
    (fun acc packet =>
      let r := u3ProcessSamples channels acc.2 (samplesFromPacket packet)
      (acc.1 ++ r.1, r.2))
    ([], off)

lemma u3ProcessSamples_append (channels : List Nat) (s1 s2 : List (List Nat))
    (off : Nat) :
    u3ProcessSamples channels off (s1 ++ s2) =
      ((u3ProcessSamples channels off s1).1 ++
        (u3ProcessSamples channels
          (u3ProcessSamples channels off s1).2 s2).1,
       (u3ProcessSamples channels
          (u3ProcessSamples channels off s1).2 s2).2) := by
  induction s1 generalizing off with
  | nil => simp [u3ProcessSamples]
  | cons s rest ih =>
    simp only [List.cons_append, u3ProcessSamples, List.append_eq]
    rw [ih]

lemma u3_foldl_packets (channels : List Nat) (pkts : List (List Nat)) :
    ∀ (acc : List (Nat × List Nat)) (off : Nat),
      pkts.foldl (fun acc packet =>
        let r := u3ProcessSamples channels acc.2 (samplesFromPacket packet)
        (acc.1 ++ r.1, r.2)) (acc, off) =
      (acc ++ (u3ProcessSamples channels off
          ((pkts.map samplesFromPacket).join)).1,
       (u3ProcessSamples channels off
          ((pkts.map samplesFromPacket).join)).2) := by
  induction pkts with
  | nil => intro acc off; simp [u3ProcessSamples]
  | cons p ps ih =>
    intro acc off
    simp only [List.foldl_cons, List.map_cons, List.join_cons]
    rw [ih, u3ProcessSamples_append]
    simp [List.append_assoc]

lemma u3ProcessSamples_length (channels : List Nat)
    (samples : List (List Nat)) : ∀ off : Nat,
    (u3ProcessSamples channels off samples).1.length = samples.length := by
  induction samples with
  | nil => intro off; rfl
  | cons s rest ih =>
    intro off
    simp only [u3ProcessSamples, List.length_cons]
    rw [ih]

lemma u3ProcessSamples_channel (channels : List Nat)
    (h1 : 0 < channels.length) (samples : List (List Nat)) :
    ∀ (off k : Nat), off ≤ channels.length → k < samples.length →
      (u3ProcessSamples channels off samples).1.getD k (0, []) =
        (channels.getD ((off + k) % channels.length) 0,
         samples.getD k []) := by
  induction samples with
  | nil => intro off k _ hk; simp at hk
  | cons s rest ih =>
    intro off k hoff hk
    have hoffc : (if channels.length ≤ off then 0 else off) % channels.length
        = off % channels.length := by
      split
      · have : off = channels.length := by omega
        rw [this, Nat.zero_mod, Nat.mod_self]
      · rfl
    cases k with
    | zero =>
      simp only [u3ProcessSamples, List.getD_cons_zero, Nat.add_zero]
      have hmod : off % channels.length =
          if channels.length ≤ off then 0 else off := by
        split
        · have : off = channels.length := by omega
          rw [this, Nat.mod_self]
        · exact Nat.mod_eq_of_lt (by omega)
      rw [hmod]
    | succ n =>
      simp only [u3ProcessSamples, List.getD_cons_succ]
      have hoff' : (if channels.length ≤ off then 0 else off) + 1 ≤
          channels.length := by
        split <;> omega
      rw [ih _ n hoff' (by simpa using hk)]
      have hcong : ((if channels.length ≤ off then 0 else off) + 1 + n) %
          channels.length = (off + (n + 1)) % channels.length := by
        have := Nat.ModEq.add_right (1 + n)
          (show (if channels.length ≤ off then 0 else off) ≡ off
            [MOD channels.length] from hoffc)
        calc ((if channels.length ≤ off then 0 else off) + 1 + n) %
              channels.length
            = ((if channels.length ≤ off then 0 else off) + (1 + n)) %
              channels.length := by ring_nf
          _ = (off + (1 + n)) % channels.length := this
          _ = (off + (n + 1)) % channels.length := by ring_nf
      rw [hcong]

/-- C5: the channel cursor of `U3.processStreamData` is carried across
packet boundaries — processing a block packet-by-packet equals processing
the flattened sample sequence in one pass, regardless of how the block is
cut into packets — and in that pass the k-th sample is assigned to channel
`channels[(off + k) % len(channels)]`, so packets not ending on a
whole-scan boundary keep subsequent samples on the correct channels. -/
theorem u3_stream_channel_cursor (channels : List Nat) (off : Nat)
    (result : List Nat) (nb : Nat) (h1 : 0 < channels.length)
    (h2 : off ≤ channels.length) :
    u3ProcessStreamData channels off result nb =
      u3ProcessSamples channels off
        (((breakupPackets result nb).map samplesFromPacket).join) ∧
    (∀ samples : List (List Nat), ∀ k : Nat, k < samples.length →
      (u3ProcessSamples channels off samples).1.length = samples.length ∧
      (u3ProcessSamples channels off samples).1.getD k (0, []) =
        (channels.getD ((off + k) % channels.length) 0,
         samples.getD k [])) := by
  constructor
  · unfold u3ProcessStreamData
    rw [u3_foldl_packets]
    simp
  · intro samples k hk
    exact ⟨u3ProcessSamples_length channels samples off,
      u3ProcessSamples_channel channels h1 samples off k h2 hk⟩

/-- Witness for C5: two 16-byte packets, one 2-byte sample each, two
configured channels 4 and 5; the second packet's sample lands on channel 5
because the cursor survived the packet boundary. -/
theorem u3_stream_channel_cursor_witness :
    u3ProcessStreamData [4, 5] 0
        ([0, 0, 0, 0, 0, 0, 0, 0, 0, 0, 0, 0, 10, 11, 0, 0] ++
         [0, 0, 0, 0, 0, 0, 0, 0, 0, 0, 0, 0, 20, 21, 0, 0]) 16 =
      u3ProcessSamples [4, 5] 0
        (((breakupPackets
            ([0, 0, 0, 0, 0, 0, 0, 0, 0, 0, 0, 0, 10, 11, 0, 0] ++
             [0, 0, 0, 0, 0, 0, 0, 0, 0, 0, 0, 0, 20, 21, 0, 0]) 16).map
          samplesFromPacket).join) ∧
    (u3ProcessSamples [4, 5] 0 [[10, 11], [20, 21]]).1.getD 1 (0, []) =
      (5, [20, 21]) := by
  have h := u3_stream_channel_cursor [4, 5] 0
    ([0, 0, 0, 0, 0, 0, 0, 0, 0, 0, 0, 0, 10, 11, 0, 0] ++
     [0, 0, 0, 0, 0, 0, 0, 0, 0, 0, 0, 0, 20, 21, 0, 0]) 16
    (by decide) (by decide)
  refine ⟨h.1, ?_⟩
  have h2 := (h.2 [[10, 11], [20, 21]] 1 (by decide)).2
  rw [h2]
  rfl

/-! ## Register read layer (`Device.readRegister`, LabJackPython.py;
`Modbus.py`) -/

/-- `Modbus.calcNumberOfRegisters(addr)` from Modbus.py: address ranges
needing two 16-bit register words. -/
def calcNumberOfRegisters (addr : Nat) : Nat :=
  if addr < 1000 then 2
  else if 5000 ≤ addr ∧ addr < 6000 then 2
  else if 7000 ≤ addr ∧ addr < 8000 then 2
  else if (64008 ≤ addr ∧ addr < 64018) ∨ addr = 65001 then 2
  else 1

/-- The payload decode formats the register layer uses (`'>f'`, `'>I'`,
`'>H'`). -/
inductive PayloadFormat where
  | fmtFloat
  | fmtUInt32
  | fmtUInt16
deriving Repr, DecidableEq

/-- Modelled from the spec: `Modbus.calcFormat`, which
`Device.readRegister` calls when no format is passed, is absent from
src/src/Modbus.py (the file predates it).  Per spec §4.3 the register map
assigns multi-word floats to the analog-input and DAC ranges, 32-bit words
to timers/counters and serial-number identifiers, and a single 16-bit word
elsewhere — the same ranges `calcNumberOfRegisters` special-cases. -/
def calcFormat (addr : Nat) : PayloadFormat :=
  if addr < 1000 then PayloadFormat.fmtFloat
  else if 5000 ≤ addr ∧ addr < 6000 then PayloadFormat.fmtFloat
  else if 7000 ≤ addr ∧ addr < 8000 then PayloadFormat.fmtUInt32
  else if (64008 ≤ addr ∧ addr < 64018) ∨ addr = 65001 then
    PayloadFormat.fmtUInt32
  else PayloadFormat.fmtUInt16

/-- Big-endian 32-bit value of four bytes (`unpack('>I')`; for `'>f'` the
IEEE bit pattern, float decoding abstracted to the 32-bit code). -/
def be32 (b0 b1 b2 b3 : Nat) : Nat :=
  16777216 * b0 + 65536 * b1 + 256 * b2 + b3

/-- `unpack(payloadFormat, packet[HEADER_LENGTH:])`: `struct.unpack`
requires the byte count to match the format exactly, else it raises. -/
def unpackPayload (fmt : PayloadFormat) (payload : List Nat) :
    Except String (List Nat) :=
  match fmt with
  | PayloadFormat.fmtFloat =>
      if payload.length = 4 then
        Except.ok [be32 (byteAt payload 0) (byteAt payload 1)
          (byteAt payload 2) (byteAt payload 3)]
      else Except.error "unpack requires 4 bytes"
  | PayloadFormat.fmtUInt32 =>
      if payload.length = 4 then
        Except.ok [be32 (byteAt payload 0) (byteAt payload 1)
          (byteAt payload 2) (byteAt payload 3)]
      else Except.error "unpack requires 4 bytes"
  | PayloadFormat.fmtUInt16 =>
      if payload.length = 2 then
        Except.ok [256 * byteAt payload 0 + byteAt payload 1]
      else Except.error "unpack requires 2 bytes"

/-- `Modbus.readHoldingRegistersRequest`: `TCP_HEADER` (pack '>HHHB' of
(0, 0, 6, 0xff)) followed by pack '>BHH' of (0x03, addr, numReg). -/
def readHoldingRegistersRequest (addr numReg : Nat) : List Nat :=
  [0, 0, 0, 0, 0, 6, 255] ++
    [3, addr / 256 % 256, addr % 256, numReg / 256 % 256, numReg % 256]

/-- `Modbus.readHoldingRegistersResponse`: unpack the 9-byte header
(requires at least 9 bytes), check for a Modbus exception (0x83), the read
command echo (0x03) and the advertised payload length, then unpack the
payload with the given format. -/
def readHoldingRegistersResponse (packet : List Nat)
    (payloadFormat : PayloadFormat) : Except String (List Nat) :=
  if packet.length < 9 then Except.error "unpack requires 9 bytes"
  else if byteAt packet 7 = 0x83 then Except.error "ModbusException"
  else if byteAt packet 7 ≠ 3 then
    Except.error "Not a read holding registers packet."
  else if byteAt packet 8 + 9 ≠ packet.length then
    Except.error "Packet length not valid."
  else unpackPayload payloadFormat (packet.drop 9)

/-- `Device._buildReadRegisterPacket`: resolve `numReg` (derived from the
address when not given — the numReg-accepting variant of
`calcNumberOfRegisters` is likewise absent from src/src/Modbus.py and
modelled from the spec's "numReg derived from the address when not
given"), build the request, and expect `9 + 2*numReg` response bytes. -/
def buildReadRegisterPacket (addr : Nat) (numReg : Option Nat) :
    List Nat × Nat :=
  let n := numReg.getD (calcNumberOfRegisters addr)
  (readHoldingRegistersRequest addr n, 9 + 2 * n)

/-- `Device._parseReadRegisterResponse`: a response whose length differs
from the expected byte count raises LabJackException 9001; otherwise the
payload is decoded with the format computed for the address when none was
passed. -/
def parseReadRegisterResponse (response : List Nat) (numBytes addr : Nat)
    (format : Option PayloadFormat) : Except String (List Nat) :=
  if response.length ≠ numBytes then
    Except.error "9001: Got incorrect number of bytes from device"
  else readHoldingRegistersResponse response (format.getD (calcFormat addr))

/-- `Device._modbusWriteRead`: write the request and read; if the read
raises, write the same request once more and read again — the second
attempt's failure propagates (no further handler).  The transport is
modelled by the outcomes of the two possible reads; the second component
counts the write+read exchanges performed. -/
def modbusWriteRead (read1 read2 : Except String (List Nat)) :
    Except String (List Nat) × Nat :=
  match read1 with
  | Except.ok r => (Except.ok r, 1)
  | Except.error _ => (read2, 2)

/-- `Device.readRegister`: build the request, perform the (at most twice)
write+read exchange, parse the response. -/
def readRegister (addr : Nat) (numReg : Option Nat)
    (format : Option PayloadFormat) (read1 read2 : Except String (List Nat)) :
    Except String (List Nat) :=
  let pkt := buildReadRegisterPacket addr numReg
  match (modbusWriteRead read1 read2).1 with
  | Except.error e => Except.error e
  | Except.ok resp => parseReadRegisterResponse resp pkt.2 addr format

/-- C7: the expected response size of a register read is `9 + 2*numReg`
bytes with `numReg` derived from the address when not given; a delivered
response of any other length raises, and a response of exactly that length
is decoded with the format computed for the address. -/
theorem readRegister_length_and_format (addr : Nat) (numReg : Option Nat)
    (resp : List Nat) :
    (buildReadRegisterPacket addr numReg).2 =
      9 + 2 * numReg.getD (calcNumberOfRegisters addr) ∧
    (resp.length ≠ 9 + 2 * numReg.getD (calcNumberOfRegisters addr) →
      readRegister addr numReg none (Except.ok resp)
        (Except.error "unused") =
        Except.error "9001: Got incorrect number of bytes from device") ∧
    (resp.length = 9 + 2 * numReg.getD (calcNumberOfRegisters addr) →
      readRegister addr numReg none (Except.ok resp)
        (Except.error "unused") =
        readHoldingRegistersResponse resp (calcFormat addr)) := by
  refine ⟨rfl, ?_, ?_⟩
  · intro hne
    simp only [readRegister, modbusWriteRead, parseReadRegisterResponse,
      buildReadRegisterPacket, Option.getD_none]
    rw [if_pos hne]
  · intro heq
    simp only [readRegister, modbusWriteRead, parseReadRegisterResponse,
      buildReadRegisterPacket, Option.getD_none]
    rw [if_neg (by omega)]

/-- Witness for C7: address 5000 (a DAC float, two registers) expects
9 + 4 = 13 bytes; a 12-byte response is rejected, and a well-formed
13-byte response decodes with the float format. -/
theorem readRegister_length_and_format_witness :
    (buildReadRegisterPacket 5000 none).2 =
      9 + 2 * (none : Option Nat).getD (calcNumberOfRegisters 5000) ∧
    readRegister 5000 none none
      (Except.ok [0, 0, 0, 0, 0, 0, 0, 3, 3, 1, 2, 3])
      (Except.error "unused") =
      Except.error "9001: Got incorrect number of bytes from device" ∧
    readRegister 5000 none none
      (Except.ok [0, 0, 0, 0, 0, 0, 0, 3, 4, 1, 2, 3, 4])
      (Except.error "unused") =
      readHoldingRegistersResponse [0, 0, 0, 0, 0, 0, 0, 3, 4, 1, 2, 3, 4]
        (calcFormat 5000) :=
  ⟨(readRegister_length_and_format 5000 none
      [0, 0, 0, 0, 0, 0, 0, 3, 3, 1, 2, 3]).1,
   (readRegister_length_and_format 5000 none
      [0, 0, 0, 0, 0, 0, 0, 3, 3, 1, 2, 3]).2.1 (by decide),
   (readRegister_length_and_format 5000 none
      [0, 0, 0, 0, 0, 0, 0, 3, 4, 1, 2, 3, 4]).2.2 (by decide)⟩

/-- C8: the register-layer exchange is write+read, retried exactly once:
a first successful read means one exchange, a failed first read leads to
exactly one resend whose outcome — success or failure — is final. -/
theorem modbus_single_retry (r1 r2 : Except String (List Nat)) :
    (modbusWriteRead r1 r2).2 ≤ 2 ∧
    (∀ v, r1 = Except.ok v → modbusWriteRead r1 r2 = (Except.ok v, 1)) ∧
    (∀ e, r1 = Except.error e → modbusWriteRead r1 r2 = (r2, 2)) := by
  refine ⟨?_, ?_, ?_⟩
  · cases r1 <;> simp [modbusWriteRead]
  · intro v hv
    rw [hv]
    rfl
  · intro e he
    rw [he]
    rfl

/-- Witness for C8: a dropped first response followed by a good second
read succeeds after exactly two exchanges. -/
theorem modbus_single_retry_witness :
    modbusWriteRead (Except.error "timeout") (Except.ok [1, 2]) =
      (Except.ok [1, 2], 2) ∧
    modbusWriteRead (Except.ok [3]) (Except.error "unused") =
      (Except.ok [3], 1) :=
  ⟨(modbus_single_retry (Except.error "timeout") (Except.ok [1, 2])).2.2
      "timeout" rfl,
   (modbus_single_retry (Except.ok [3]) (Except.error "unused")).2.1
      [3] rfl⟩

/-! ## `Device.streamStop` (LabJackPython.py) -/

/-- `Device.streamStop`: send `[0xB0, 0xB0]`, raise
`LowlevelErrorException(results[2])` on a nonzero error byte, else set
`streamStarted = False`.  The first component records the packets handed
to the transport (the source never consults `streamStarted` before
sending); the second is the raised error or the new `streamStarted`. -/
def streamStop (streamStarted : Bool) (resp : List Nat) :
    List (List Nat) × Except Nat Bool :=
  ([[0xB0, 0xB0]],
   if byteAt resp 2 ≠ 0 then Except.error (byteAt resp 2)
   else Except.ok false)

/-- C9: refuted — with the stream already stopped (`streamStarted` false),
`streamStop` is neither a no-op nor an error raised before the send: the
stop command goes to the transport unconditionally, and with a clean
device response the call simply succeeds. -/
theorem streamStop_stopped_counterexample :
    (streamStop false [0, 0, 0, 0]).1 = [[0xB0, 0xB0]] ∧
    (streamStop false [0, 0, 0, 0]).1 ≠ [] ∧
    (streamStop false [0, 0, 0, 0]).2 = Except.ok false :=
  ⟨rfl, by decide, rfl⟩

/-- C9 (amended): `streamStop` sends the stop command unconditionally,
whatever the stream state; a nonzero device error byte raises (after the
exchange, not before), and on a clean response `streamStarted` becomes
false — so a successful stop does leave the Running state, but an
already-stopped stream is neither detected locally nor rejected before
I/O. -/
theorem streamStop_unconditional_send (started : Bool) (resp : List Nat) :
    (streamStop started resp).1 = [[0xB0, 0xB0]] ∧
    (byteAt resp 2 = 0 → (streamStop started resp).2 = Except.ok false) ∧
    (byteAt resp 2 ≠ 0 →
      (streamStop started resp).2 = Except.error (byteAt resp 2)) := by
  refine ⟨rfl, ?_, ?_⟩
  · intro h
    simp [streamStop, h]
  · intro h
    simp [streamStop, h]

/-- Witness for C9 (amended): a clean response clears `streamStarted`; a
device error byte 5 is raised after the exchange. -/
theorem streamStop_unconditional_send_witness :
    (streamStop false [0, 0, 0, 0]).2 = Except.ok false ∧
    (streamStop true [0, 0, 5, 0]).2 = Except.error 5 :=
  ⟨(streamStop_unconditional_send false [0, 0, 0, 0]).2.1 rfl,
   (streamStop_unconditional_send true [0, 0, 5, 0]).2.2 (by decide)⟩

end LabJack
